import Mathlib

/-!
Shallow embedding of the `localdb` library (`src/lib.rs`).

The database file always holds a JSON document; we model the file content as
a JSON tree (`Json`), with the serde-derived externally tagged encoding of
`LocalDBValue` and the `HashMap`/`Vec` layers spelled out.  `HashMap` values
are modelled as association lists; deserialization folds entries with
replace-on-duplicate insertion, exactly as serde's map visitor does.
Rust string operations (`split`, `trim`, `split_whitespace`, `replace`,
`find`, slicing) are implemented over `List Char`.  Rust panics (out of
bounds indexing, `unwrap` on `None`, bad slice ranges) are modelled by the
`RResult.fault` constructor, distinct from the library's typed errors.
-/

namespace LocalDB

/-- `LocalDBError` from `src/lib.rs`. -/
inductive LocalDBError where
  | IoError (s : String)
  | SqlError (s : String)
deriving DecidableEq, Repr

/-- Kinds of Rust panics the library can hit. -/
inductive PanicKind where
  | indexOutOfBounds
  | unwrapNone
  | sliceOutOfRange
deriving DecidableEq, Repr

/-- Outcome of running library code: a value, a typed error, or a panic. -/
inductive RResult (α : Type) where
  | ok (a : α)
  | err (e : LocalDBError)
  | fault (k : PanicKind)
deriving DecidableEq, Repr

/-- `LocalDBValue` from `src/lib.rs`. -/
inductive LocalDBValue where
  | INT (n : Int)
  | TEXT (s : String)
  | UUID (s : String)
deriving DecidableEq, Repr

/-- A row: `HashMap<String, LocalDBValue>`, modelled as an association list. -/
abbrev Row := List (String × LocalDBValue)

/-- A collection: `Vec<HashMap<String, LocalDBValue>>`. -/
abbrev Table := List Row

/-- The whole database: `HashMap<String, Vec<HashMap<String, LocalDBValue>>>`. -/
abbrev Database := List (String × Table)

/-- `HashMap::get`. -/
def hmGet (m : List (String × α)) (k : String) : Option α :=
  match m with
  | [] => none
  | (k', v) :: rest => if k' = k then some v else hmGet rest k

/-- `HashMap::contains_key`. -/
def hmContains (m : List (String × α)) (k : String) : Bool :=
  (hmGet m k).isSome

/-- `HashMap::insert`: replace the value if the key is present, else append. -/
def hmInsert (m : List (String × α)) (k : String) (v : α) : List (String × α) :=
  match m with
  | [] => [(k, v)]
  | (k', v') :: rest =>
    if k' = k then (k, v) :: rest else (k', v') :: hmInsert rest k v

/-- `HashMap::get_mut` followed by an in-place update of the value. -/
def hmModify (m : List (String × α)) (k : String) (f : α → α) : List (String × α) :=
  match m with
  | [] => []
  | (k', v') :: rest =>
    if k' = k then (k', f v') :: rest else (k', v') :: hmModify rest k f

/-- JSON trees, the content of the database file. -/
inductive Json where
  | num (n : Int)
  | str (s : String)
  | arr (elems : List Json)
  | obj (fields : List (String × Json))

/-- Traverse a list with a fallible function, failing if any element fails. -/
def mapOpt (f : α → Option β) : List α → Option (List β)
  | [] => some []
  | a :: l =>
    match f a with
    | none => none
    | some b => (mapOpt f l).map (fun bs => b :: bs)

/-- Serde's externally tagged encoding of `LocalDBValue`. -/
def encodeValue : LocalDBValue → Json
  | .INT n => .obj [("INT", .num n)]
  | .TEXT s => .obj [("TEXT", .str s)]
  | .UUID s => .obj [("UUID", .str s)]

/-- Decoding of `LocalDBValue`; any other shape is a type error. -/
def decodeValue : Json → Option LocalDBValue
  | .obj [("INT", .num n)] => some (.INT n)
  | .obj [("TEXT", .str s)] => some (.TEXT s)
  | .obj [("UUID", .str s)] => some (.UUID s)
  | _ => none

/-- Encoding of a row (`HashMap<String, LocalDBValue>`) as a JSON object. -/
def encodeRow (r : Row) : Json :=
  .obj (r.map (fun p => (p.1, encodeValue p.2)))

/-- Decoding of a row: decode every field, then rebuild the map by insertion
(duplicate keys overwrite, as in serde's map visitor). -/
def decodeRow : Json → Option Row
  | .obj fields =>
    (mapOpt (fun p => (decodeValue p.2).map (fun v => (p.1, v))) fields).map
      (fun entries => entries.foldl (fun m e => hmInsert m e.1 e.2) [])
  | _ => none

/-- Encoding of a collection (`Vec` of rows) as a JSON array. -/
def encodeTable (rows : Table) : Json :=
  .arr (rows.map encodeRow)

/-- Decoding of a collection. -/
def decodeTable : Json → Option Table
  | .arr elems => mapOpt decodeRow elems
  | _ => none

/-- Encoding of the whole database as a JSON object. -/
def encodeDB (d : Database) : Json :=
  .obj (d.map (fun p => (p.1, encodeTable p.2)))

/-- Decoding of the whole database. -/
def decodeDB : Json → Option Database
  | .obj fields =>
    (mapOpt (fun p => (decodeTable p.2).map (fun t => (p.1, t))) fields).map
      (fun entries => entries.foldl (fun m e => hmInsert m e.1 e.2) [])
  | _ => none

/-- `LocalDB::load_json`: deserialize the file, substituting the empty
database on any deserialization failure (`unwrap_or_default`). -/
def load_json (file : Json) : Database :=
  (decodeDB file).getD []

/-- `LocalDB::save_json`: serialize the database into the file. -/
def save_json (data : Database) : Json :=
  encodeDB data

/-- Rust `str::split` on a one-character pattern: cuts at every separator,
keeping empty segments; always returns at least one segment. -/
def splitOnP (p : Char → Bool) : List Char → List (List Char)
  | [] => [[]]
  | c :: cs =>
    if p c then [] :: splitOnP p cs
    else
      match splitOnP p cs with
      | [] => [[c]]
      | seg :: rest => (c :: seg) :: rest

/-- Rust `str::split_whitespace`: whitespace-delimited tokens, empties dropped. -/
def splitWs (l : List Char) : List (List Char) :=
  (splitOnP Char.isWhitespace l).filter (fun t => !t.isEmpty)

/-- Rust `str::trim`. -/
def trimL (l : List Char) : List Char :=
  ((l.dropWhile Char.isWhitespace).reverse.dropWhile Char.isWhitespace).reverse

/-- Fuel-driven worker for `str::replace`: scan left to right, replacing each
leftmost non-overlapping occurrence of `pat`.  The fuel bounds the number of
steps; it is always at least the length of the remaining input. -/
def replaceFuel (pat rep : List Char) : Nat → List Char → List Char
  | _, [] => []
  | 0, l => l
  | fuel + 1, c :: cs =>
    if pat ≠ [] ∧ pat.isPrefixOf (c :: cs) then
      rep ++ replaceFuel pat rep fuel (List.drop (pat.length - 1) cs)
    else
      c :: replaceFuel pat rep fuel cs

/-- Rust `str::replace`. -/
def replaceL (pat rep l : List Char) : List Char :=
  replaceFuel pat rep l.length l

/-- Rust `str::find` for a one-character pattern: index of first occurrence. -/
def findIdxCh (c : Char) : List Char → Option Nat
  | [] => none
  | x :: xs => if x = c then some 0 else (findIdxCh c xs).map (fun n => n + 1)

/-- Rust slice `s[a..b]` (on the happy path `a ≤ b ≤ len`). -/
def sliceL (l : List Char) (a b : Nat) : List Char :=
  (l.drop a).take (b - a)

/-- `LocalDB::extract_table_name_from_create`: the 3rd whitespace token,
panicking if there are fewer than 3 tokens. -/
def extract_table_name_from_create (sql : List Char) : RResult String :=
  match (splitWs sql).get? 2 with
  | some t => .ok t.asString
  | none => .fault .indexOutOfBounds

/-- `LocalDB::extract_table_name_from_select`: error if fewer than 4 tokens,
else the 4th token with every `;` removed. -/
def extract_table_name_from_select (sql : List Char) : RResult String :=
  let parts := splitWs sql
  if parts.length < 4 then .err (.SqlError "Invalid SELECT syntax")
  else
    match parts.get? 3 with
    | some t => .ok (replaceL [';'] [] t).asString
    | none => .fault .indexOutOfBounds

/-- `LocalDB::extract_insert_data`: the 3rd whitespace token is the table;
the substring between the first `(` and the first `)` is split on `,` and its
first two pieces, trimmed and with `'` removed, are the id and name. -/
def extract_insert_data (sql : List Char) : RResult (String × String × String) :=
  match (splitWs sql).get? 2 with
  | none => .fault .indexOutOfBounds
  | some table =>
    match findIdxCh '(' sql with
    | none => .fault .unwrapNone
    | some i =>
      match findIdxCh ')' sql with
      | none => .fault .unwrapNone
      | some j =>
        if i + 1 ≤ j then
          let params := sliceL sql (i + 1) j
          let args := splitOnP (fun c => c == ',') params
          match args.get? 0 with
          | none => .fault .indexOutOfBounds
          | some a =>
            match args.get? 1 with
            | none => .fault .indexOutOfBounds
            | some b =>
              .ok (table.asString,
                   (replaceL ['\''] [] (trimL a)).asString,
                   (replaceL ['\''] [] (trimL b)).asString)
        else .fault .sliceOutOfRange

/-- `LocalDB::handle_create_table` acting on the file content. -/
def handle_create_table (st : Json) (stmt : List Char) : RResult Json :=
  match extract_table_name_from_create stmt with
  | .ok name =>
    let data := load_json st
    let data' := if !hmContains data name then hmInsert data name [] else data
    .ok (save_json data')
  | .err e => .err e
  | .fault k => .fault k

/-- `LocalDB::handle_insert` acting on the file content: normalize `INSET` to
`INSERT` everywhere in the statement, extract, ensure the table exists, then
append the row `{id: UUID, name: TEXT}`. -/
def handle_insert (st : Json) (stmt : List Char) : RResult Json :=
  let sqlFixed := replaceL "INSET".toList "INSERT".toList stmt
  match extract_insert_data sqlFixed with
  | .ok (table, uuid, name) =>
    let data := load_json st
    let data₁ := if !hmContains data table then hmInsert data table [] else data
    let row : Row := hmInsert (hmInsert [] "id" (LocalDBValue.UUID uuid)) "name"
        (LocalDBValue.TEXT name)
    let data₂ := hmModify data₁ table (fun rows => rows ++ [row])
    .ok (save_json data₂)
  | .err e => .err e
  | .fault k => .fault k

/-- Statement loop of `LocalDB::exec`: trim each segment, skip empty ones,
dispatch on the leading text, abort on the first failure. -/
def execGo (st : Json) : List (List Char) → RResult Json
  | [] => .ok st
  | raw :: rest =>
    let stmt := trimL raw
    if stmt.isEmpty then execGo st rest
    else if "CREATE TABLE".toList.isPrefixOf stmt then
      match handle_create_table st stmt with
      | .ok st' => execGo st' rest
      | .err e => .err e
      | .fault k => .fault k
    else if "INSERT INTO".toList.isPrefixOf stmt || "INSET INTO".toList.isPrefixOf stmt then
      match handle_insert st stmt with
      | .ok st' => execGo st' rest
      | .err e => .err e
      | .fault k => .fault k
    else .err (.SqlError ("Unsupported SQL: " ++ stmt.asString))

/-- `LocalDB::exec`: split the batch on `;` and run the statement loop. -/
def exec (st : Json) (sql : String) : RResult Json :=
  execGo st (splitOnP (fun c => c == ';') sql.toList)

/-- `LocalDB::query`: `SELECT * FROM table;` against the file content. -/
def query (st : Json) (sql : String) : RResult (List Row) :=
  let s := trimL sql.toList
  if "SELECT".toList.isPrefixOf s then
    match extract_table_name_from_select s with
    | .ok table => .ok ((hmGet (load_json st) table).getD [])
    | .err e => .err e
    | .fault k => .fault k
  else .err (.SqlError "Only SELECT is supported")

/-- A row is well formed when its field names are distinct (it denotes a
`HashMap`). -/
def RowWf (r : Row) : Prop :=
  (r.map Prod.fst).Nodup

/-- A database is well formed when its collection names are distinct and all
its rows are well formed (it denotes nested `HashMap`s). -/
def DBWf (d : Database) : Prop :=
  (d.map Prod.fst).Nodup ∧ ∀ p ∈ d, ∀ r ∈ p.2, RowWf r

instance (r : Row) : Decidable (RowWf r) :=
  inferInstanceAs (Decidable ((r.map Prod.fst).Nodup))

instance (d : Database) : Decidable (DBWf d) :=
  inferInstanceAs (Decidable (_ ∧ _))

/-! ### Association-list lemmas -/

theorem hmGet_append_of_none {a : List (String × α)} {k : String}
    (h : hmGet a k = none) (b : List (String × α)) :
    hmGet (a ++ b) k = hmGet b k := by
  induction a with
  | nil => rfl
  | cons p rest ih =>
    rw [List.cons_append]
    by_cases hk : p.1 = k
    · simp [hmGet, hk] at h
    · simp only [hmGet, hk, if_false] at h ⊢
      exact ih h

theorem hmGet_append_of_some {a : List (String × α)} {k : String} {v : α}
    (h : hmGet a k = some v) (b : List (String × α)) :
    hmGet (a ++ b) k = some v := by
  induction a with
  | nil => exact absurd h (by simp [hmGet])
  | cons p rest ih =>
    rw [List.cons_append]
    by_cases hk : p.1 = k
    · simp only [hmGet, hk, if_true] at h ⊢
      exact h
    · simp only [hmGet, hk, if_false] at h ⊢
      exact ih h

theorem hmGet_eq_none_iff {m : List (String × α)} {k : String} :
    hmGet m k = none ↔ k ∉ m.map Prod.fst := by
  induction m with
  | nil => simp [hmGet]
  | cons p rest ih =>
    unfold hmGet
    by_cases h : p.1 = k <;> simp [h, ih, Ne.symm]

theorem hmGet_cons (p : String × α) (m : List (String × α)) (k : String) :
    hmGet (p :: m) k = if p.1 = k then some p.2 else hmGet m k := by
  rcases p with ⟨k', v⟩
  rfl

theorem hmInsert_of_none {m : List (String × α)} {k : String}
    (h : hmGet m k = none) (v : α) :
    hmInsert m k v = m ++ [(k, v)] := by
  induction m with
  | nil => rfl
  | cons p rest ih =>
    rcases p with ⟨k', v'⟩
    simp only [hmGet_cons] at h
    by_cases hk : k' = k
    · rw [if_pos hk] at h
      cases h
    · rw [if_neg hk] at h
      simp only [hmInsert, if_neg hk, List.cons_append, ih h]

theorem foldl_hmInsert_eq (l : List (String × α)) :
    ∀ acc, (l.map Prod.fst).Nodup → (∀ p ∈ l, hmGet acc p.1 = none) →
    l.foldl (fun m e => hmInsert m e.1 e.2) acc = acc ++ l := by
  induction l with
  | nil => intro acc _ _; simp
  | cons e rest ih =>
    intro acc hnd hdis
    rw [List.foldl_cons]
    have he : hmGet acc e.1 = none := hdis e (by simp)
    rw [hmInsert_of_none he]
    have hnd' : (rest.map Prod.fst).Nodup := by
      simpa using hnd.of_cons
    have hdis' : ∀ p ∈ rest, hmGet (acc ++ [(e.1, e.2)]) p.1 = none := by
      intro p hp
      rw [hmGet_append_of_none (hdis p (List.mem_cons_of_mem _ hp))]
      have hne : e.1 ≠ p.1 := by
        intro hcontra
        have : e.1 ∈ rest.map Prod.fst := by
          rw [hcontra]
          exact List.mem_map_of_mem Prod.fst hp
        simp only [List.map_cons, List.nodup_cons] at hnd
        exact hnd.1 this
      simp [hmGet, hne]
    rw [ih (acc ++ [(e.1, e.2)]) hnd' hdis']
    simp

/-! ### Round-trip of the serialization -/

theorem decodeValue_encodeValue (v : LocalDBValue) :
    decodeValue (encodeValue v) = some v := by
  cases v <;> rfl

theorem mapOpt_row_roundtrip (r : Row) :
    mapOpt (fun p => (decodeValue p.2).map (fun v => (p.1, v)))
      (r.map (fun p => (p.1, encodeValue p.2))) = some r := by
  induction r with
  | nil => rfl
  | cons p rest ih =>
    simp [mapOpt, decodeValue_encodeValue, ih]

theorem decodeRow_encodeRow (r : Row) (h : RowWf r) :
    decodeRow (encodeRow r) = some r := by
  simp only [decodeRow, encodeRow]
  rw [mapOpt_row_roundtrip]
  simpa using foldl_hmInsert_eq r [] h (fun p _ => rfl)

theorem mapOpt_table_roundtrip (rows : Table) (h : ∀ r ∈ rows, RowWf r) :
    mapOpt decodeRow (rows.map encodeRow) = some rows := by
  induction rows with
  | nil => rfl
  | cons r rest ih =>
    simp only [List.map_cons, mapOpt, decodeRow_encodeRow r (h r (by simp))]
    rw [ih (fun r hr => h r (List.mem_cons_of_mem _ hr))]
    rfl

theorem decodeTable_encodeTable (rows : Table) (h : ∀ r ∈ rows, RowWf r) :
    decodeTable (encodeTable rows) = some rows := by
  simp only [decodeTable, encodeTable]
  exact mapOpt_table_roundtrip rows h

theorem mapOpt_db_roundtrip (d : Database) (h : ∀ p ∈ d, ∀ r ∈ p.2, RowWf r) :
    mapOpt (fun p => (decodeTable p.2).map (fun t => (p.1, t)))
      (d.map (fun p => (p.1, encodeTable p.2))) = some d := by
  induction d with
  | nil => rfl
  | cons p rest ih =>
    simp only [List.map_cons, mapOpt,
      decodeTable_encodeTable p.2 (h p (by simp))]
    rw [ih (fun q hq => h q (List.mem_cons_of_mem _ hq))]
    rfl

theorem decodeDB_encodeDB (d : Database) (h : DBWf d) :
    decodeDB (encodeDB d) = some d := by
  simp only [decodeDB, encodeDB]
  rw [mapOpt_db_roundtrip d h.2]
  simpa using foldl_hmInsert_eq d [] h.1 (fun p _ => rfl)

theorem load_json_save_json (d : Database) (h : DBWf d) :
    load_json (save_json d) = d := by
  unfold load_json save_json
  rw [decodeDB_encodeDB d h]
  rfl


/-! ### Well-formedness invariants -/

theorem hmInsert_mem {m : List (String × α)} {k : String} {v : α} {q}
    (h : q ∈ hmInsert m k v) : q ∈ m ∨ q = (k, v) := by
  induction m with
  | nil =>
    right
    simpa [hmInsert] using h
  | cons p rest ih =>
    rcases p with ⟨k', v'⟩
    by_cases hk : k' = k
    · simp only [hmInsert, if_pos hk] at h
      rcases List.mem_cons.1 h with h | h
      · exact Or.inr h
      · exact Or.inl (List.mem_cons_of_mem _ h)
    · simp only [hmInsert, if_neg hk] at h
      rcases List.mem_cons.1 h with h | h
      · exact Or.inl (by simp [h])
      · rcases ih h with h | h
        · exact Or.inl (List.mem_cons_of_mem _ h)
        · exact Or.inr h

theorem mem_keys_hmInsert {m : List (String × α)} {k k'' : String} {v : α}
    (h : k'' ∈ (hmInsert m k v).map Prod.fst) :
    k'' = k ∨ k'' ∈ m.map Prod.fst := by
  rcases List.mem_map.1 h with ⟨q, hq, hq'⟩
  rcases hmInsert_mem hq with h' | h'
  · right
    rw [← hq']
    exact List.mem_map_of_mem Prod.fst h'
  · left
    rw [← hq', h']

theorem hmInsert_keys_nodup {m : List (String × α)} {k : String} {v : α}
    (h : (m.map Prod.fst).Nodup) : ((hmInsert m k v).map Prod.fst).Nodup := by
  induction m with
  | nil => simp [hmInsert]
  | cons p rest ih =>
    rcases p with ⟨k', v'⟩
    simp only [List.map_cons, List.nodup_cons] at h
    by_cases hk : k' = k
    · simp only [hmInsert, if_pos hk, List.map_cons, List.nodup_cons]
      exact ⟨by rw [← hk]; exact h.1, h.2⟩
    · simp only [hmInsert, if_neg hk, List.map_cons, List.nodup_cons]
      refine ⟨fun hc => ?_, ih h.2⟩
      rcases mem_keys_hmInsert hc with h' | h'
      · exact hk h'
      · exact h.1 h'

theorem foldl_hmInsert_keys_nodup (l : List (String × α)) :
    ∀ acc : List (String × α), (acc.map Prod.fst).Nodup →
    ((l.foldl (fun m e => hmInsert m e.1 e.2) acc).map Prod.fst).Nodup := by
  induction l with
  | nil => intro acc h; simpa using h
  | cons e rest ih =>
    intro acc h
    rw [List.foldl_cons]
    exact ih _ (hmInsert_keys_nodup h)

theorem mem_foldl_hmInsert (l : List (String × α)) :
    ∀ (acc : List (String × α)) q,
      q ∈ l.foldl (fun m e => hmInsert m e.1 e.2) acc → q ∈ acc ∨ q ∈ l := by
  induction l with
  | nil => intro acc q h; exact Or.inl (by simpa using h)
  | cons e rest ih =>
    intro acc q h
    rw [List.foldl_cons] at h
    rcases ih _ q h with h' | h'
    · rcases hmInsert_mem h' with h'' | h''
      · exact Or.inl h''
      · exact Or.inr (by simp [h''])
    · exact Or.inr (List.mem_cons_of_mem _ h')

theorem mapOpt_mem {f : α → Option β} :
    ∀ {l : List α} {l' : List β}, mapOpt f l = some l' →
      ∀ q ∈ l', ∃ a ∈ l, f a = some q := by
  intro l
  induction l with
  | nil =>
    intro l' h q hq
    simp only [mapOpt, Option.some.injEq] at h
    subst h
    cases hq
  | cons a rest ih =>
    intro l' h q hq
    simp only [mapOpt] at h
    cases hfa : f a with
    | none => rw [hfa] at h; cases h
    | some b =>
      rw [hfa] at h
      cases hrest : mapOpt f rest with
      | none => rw [hrest] at h; cases h
      | some rest' =>
        rw [hrest] at h
        simp only [Option.map_some', Option.some.injEq] at h
        subst h
        rcases List.mem_cons.1 hq with hq | hq
        · exact ⟨a, by simp, by rw [hfa, hq]⟩
        · rcases ih hrest q hq with ⟨a', ha', hfa'⟩
          exact ⟨a', List.mem_cons_of_mem _ ha', hfa'⟩

theorem decodeRow_wf {j : Json} {r : Row} (h : decodeRow j = some r) :
    RowWf r := by
  cases j with
  | obj fields =>
    simp only [decodeRow] at h
    cases hm : mapOpt (fun p => (decodeValue p.2).map (fun v => (p.1, v))) fields with
    | none => rw [hm] at h; cases h
    | some entries =>
      rw [hm] at h
      simp only [Option.map_some', Option.some.injEq] at h
      subst h
      exact foldl_hmInsert_keys_nodup entries [] (by simp)
  | num n => cases h
  | str s => cases h
  | arr elems => cases h

theorem decodeTable_rows_wf {j : Json} {rows : Table}
    (h : decodeTable j = some rows) : ∀ r ∈ rows, RowWf r := by
  cases j with
  | arr elems =>
    simp only [decodeTable] at h
    intro r hr
    rcases mapOpt_mem h r hr with ⟨e, _, he⟩
    exact decodeRow_wf he
  | num n => cases h
  | str s => cases h
  | obj fields => cases h

theorem decodeDB_wf {j : Json} {d : Database} (h : decodeDB j = some d) :
    DBWf d := by
  cases j with
  | obj fields =>
    simp only [decodeDB] at h
    cases hm : mapOpt (fun p => (decodeTable p.2).map (fun t => (p.1, t))) fields with
    | none => rw [hm] at h; cases h
    | some entries =>
      rw [hm] at h
      simp only [Option.map_some', Option.some.injEq] at h
      subst h
      refine ⟨foldl_hmInsert_keys_nodup entries [] (by simp), ?_⟩
      intro p hp r hr
      rcases mem_foldl_hmInsert entries [] p hp with hp' | hp'
      · cases hp'
      · rcases mapOpt_mem hm p hp' with ⟨a, _, ha⟩
        rcases Option.map_eq_some'.1 ha with ⟨t, ht, hpt⟩
        have hp2 : p.2 = t := by rw [← hpt]
        exact decodeTable_rows_wf (hp2 ▸ ht) r hr
  | num n => cases h
  | str s => cases h
  | arr elems => cases h

theorem DBWf_nil : DBWf ([] : Database) :=
  ⟨by simp, by intro p hp; cases hp⟩

theorem load_json_wf (st : Json) : DBWf (load_json st) := by
  unfold load_json
  cases h : decodeDB st with
  | none => exact DBWf_nil
  | some d => exact decodeDB_wf h

/-! ### Lookup behaviour of the handler steps -/

theorem hmGet_hmModify_self (m : List (String × α)) (k : String) (f : α → α) :
    hmGet (hmModify m k f) k = (hmGet m k).map f := by
  induction m with
  | nil => rfl
  | cons p rest ih =>
    rcases p with ⟨k', v⟩
    by_cases hk : k' = k
    · simp [hmModify, hmGet, hk]
    · simp [hmModify, hmGet, hk, ih]

theorem hmGet_hmModify_of_ne (m : List (String × α)) {k k' : String}
    (f : α → α) (h : k' ≠ k) :
    hmGet (hmModify m k f) k' = hmGet m k' := by
  induction m with
  | nil => rfl
  | cons p rest ih =>
    rcases p with ⟨kp, v⟩
    by_cases hk : kp = k
    · simp [hmModify, hmGet, hk, Ne.symm h]
    · by_cases hk' : kp = k' <;> simp [hmModify, hmGet, hk, hk', h, ih]

theorem hmGet_ensure_self (d : Database) (t : String) :
    hmGet (if !hmContains d t then hmInsert d t [] else d) t =
      some ((hmGet d t).getD []) := by
  by_cases h : hmContains d t
  · rcases Option.isSome_iff_exists.1 h with ⟨v, hv⟩
    simp [h, hv]
  · have hnone : hmGet d t = none :=
      Option.not_isSome_iff_eq_none.1 (by simpa [hmContains] using h)
    rw [if_pos (by simp [h]), hmInsert_of_none hnone,
      hmGet_append_of_none hnone, hnone]
    simp [hmGet]

theorem hmGet_ensure_of_ne (d : Database) {t k : String} (h : k ≠ t) :
    hmGet (if !hmContains d t then hmInsert d t [] else d) k = hmGet d k := by
  by_cases hc : hmContains d t
  · simp [hc]
  · have hnone : hmGet d t = none :=
      Option.not_isSome_iff_eq_none.1 (by simpa [hmContains] using hc)
    rw [if_pos (by simp [hc]), hmInsert_of_none hnone]
    cases hk : hmGet d k with
    | none =>
      rw [hmGet_append_of_none hk]
      have hne : t ≠ k := fun hc' => h hc'.symm
      simp [hmGet, hne]
    | some v => rw [hmGet_append_of_some hk]

theorem hmContains_ensure (d : Database) (t : String) :
    hmContains (if !hmContains d t then hmInsert d t [] else d) t = true := by
  have h := hmGet_ensure_self d t
  simp only [hmContains] at h ⊢
  rw [h]
  rfl

theorem DBWf_ensure {d : Database} (t : String) (h : DBWf d) :
    DBWf (if !hmContains d t then hmInsert d t [] else d) := by
  by_cases hc : hmContains d t
  · simpa [hc] using h
  · have hnone : hmGet d t = none :=
      Option.not_isSome_iff_eq_none.1 (by simpa [hmContains] using hc)
    rw [if_pos (by simp [hc]), hmInsert_of_none hnone]
    constructor
    · have hk : t ∉ d.map Prod.fst := hmGet_eq_none_iff.1 hnone
      simp [List.nodup_append, h.1, hk]
    · intro p hp r hr
      rcases List.mem_append.1 hp with hp' | hp'
      · exact h.2 p hp' r hr
      · have hpt : p = (t, ([] : Table)) := by simpa using hp'
        rw [hpt] at hr
        cases hr

theorem map_fst_hmModify (m : List (String × α)) (k : String) (f : α → α) :
    (hmModify m k f).map Prod.fst = m.map Prod.fst := by
  induction m with
  | nil => rfl
  | cons p rest ih =>
    rcases p with ⟨kp, v⟩
    by_cases hk : kp = k <;> simp [hmModify, hk, ih]

theorem hmModify_mem {m : List (String × α)} {k : String} {f : α → α} {q}
    (h : q ∈ hmModify m k f) : q ∈ m ∨ ∃ p ∈ m, q = (p.1, f p.2) := by
  induction m with
  | nil => simp [hmModify] at h
  | cons p rest ih =>
    rcases p with ⟨kp, v⟩
    by_cases hk : kp = k
    · simp only [hmModify, if_pos hk] at h
      rcases List.mem_cons.1 h with h | h
      · exact Or.inr ⟨(kp, v), by simp, by simp [h]⟩
      · exact Or.inl (List.mem_cons_of_mem _ h)
    · simp only [hmModify, if_neg hk] at h
      rcases List.mem_cons.1 h with h | h
      · exact Or.inl (by simp [h])
      · rcases ih h with h | h
        · exact Or.inl (List.mem_cons_of_mem _ h)
        · rcases h with ⟨p', hp', hq⟩
          exact Or.inr ⟨p', List.mem_cons_of_mem _ hp', hq⟩

theorem DBWf_modify_append {d : Database} (t : String) {row : Row}
    (h : DBWf d) (hrow : RowWf row) :
    DBWf (hmModify d t (fun rows => rows ++ [row])) := by
  constructor
  · rw [map_fst_hmModify]
    exact h.1
  · intro p hp r hr
    rcases hmModify_mem hp with hp' | ⟨p', hp', hq⟩
    · exact h.2 p hp' r hr
    · rw [hq] at hr
      simp only at hr
      rcases List.mem_append.1 hr with hr' | hr'
      · exact h.2 p' hp' r hr'
      · have hrr : r = row := by simpa using hr'
        rwa [hrr]

theorem insert_step_get_self (d : Database) (t : String) (row : Row) :
    hmGet (hmModify (if !hmContains d t then hmInsert d t [] else d) t
        (fun rows => rows ++ [row])) t =
      some ((hmGet d t).getD [] ++ [row]) := by
  rw [hmGet_hmModify_self, hmGet_ensure_self]
  rfl

theorem insert_step_get_of_ne (d : Database) {t k : String} (row : Row)
    (h : k ≠ t) :
    hmGet (hmModify (if !hmContains d t then hmInsert d t [] else d) t
        (fun rows => rows ++ [row])) k = hmGet d k := by
  rw [hmGet_hmModify_of_ne _ _ h, hmGet_ensure_of_ne _ h]


/-! ### Statement dispatch -/

theorem splitOnP_eq_single {p : Char → Bool} {l : List Char}
    (h : ∀ c ∈ l, p c = false) : splitOnP p l = [l] := by
  induction l with
  | nil => rfl
  | cons c cs ih =>
    have hc : p c = false := h c (by simp)
    have ih' := ih (fun c' hc' => h c' (List.mem_cons_of_mem _ hc'))
    simp [splitOnP, hc, ih']

theorem exec_eq_single (st : Json) (sql : String) (h : ';' ∉ sql.toList) :
    exec st sql = execGo st [sql.toList] := by
  unfold exec
  rw [splitOnP_eq_single]
  intro c hc
  have hne : c ≠ ';' := fun hcc => h (hcc ▸ hc)
  simpa using hne

theorem trim_ne_nil_of_create {l : List Char}
    (h : "CREATE TABLE".toList.isPrefixOf (trimL l) = true) :
    (trimL l).isEmpty = false := by
  cases hl : trimL l with
  | nil => rw [hl] at h; exact absurd h (by decide)
  | cons c cs => rfl

theorem exec_single_create (st : Json) (sql : String) (tok : List Char)
    (h1 : ';' ∉ sql.toList)
    (h2 : "CREATE TABLE".toList.isPrefixOf (trimL sql.toList) = true)
    (h3 : (splitWs (trimL sql.toList)).get? 2 = some tok) :
    exec st sql = .ok (save_json
      (if !hmContains (load_json st) tok.asString
       then hmInsert (load_json st) tok.asString [] else load_json st)) := by
  rw [exec_eq_single st sql h1]
  have hempty := trim_ne_nil_of_create h2
  simp only [execGo, hempty, Bool.false_eq_true, if_false, h2, if_true,
    handle_create_table, extract_table_name_from_create, h3]

theorem trim_ne_nil_of_insert {l : List Char}
    (h : ("INSERT INTO".toList.isPrefixOf (trimL l)
        || "INSET INTO".toList.isPrefixOf (trimL l)) = true) :
    (trimL l).isEmpty = false := by
  cases hl : trimL l with
  | nil => rw [hl] at h; exact absurd h (by decide)
  | cons c cs => rfl

theorem not_create_of_insert {l : List Char}
    (h : ("INSERT INTO".toList.isPrefixOf l
        || "INSET INTO".toList.isPrefixOf l) = true) :
    "CREATE TABLE".toList.isPrefixOf l = false := by
  cases l with
  | nil => exact absurd h (by decide)
  | cons c cs =>
    have hc : c = 'I' := by
      rw [Bool.or_eq_true] at h
      rcases h with h' | h'
      · have e1 : "INSERT INTO".toList = 'I' :: "NSERT INTO".toList := rfl
        rw [e1] at h'
        simp only [List.isPrefixOf, Bool.and_eq_true, beq_iff_eq] at h'
        exact h'.1.symm
      · have e2 : "INSET INTO".toList = 'I' :: "NSET INTO".toList := rfl
        rw [e2] at h'
        simp only [List.isPrefixOf, Bool.and_eq_true, beq_iff_eq] at h'
        exact h'.1.symm
    have e3 : "CREATE TABLE".toList = 'C' :: "REATE TABLE".toList := rfl
    rw [e3, hc]
    simp [List.isPrefixOf]

theorem exec_single_insert (st : Json) (sql : String) (t u n : String)
    (h1 : ';' ∉ sql.toList)
    (h2 : ("INSERT INTO".toList.isPrefixOf (trimL sql.toList)
        || "INSET INTO".toList.isPrefixOf (trimL sql.toList)) = true)
    (h3 : extract_insert_data
        (replaceL "INSET".toList "INSERT".toList (trimL sql.toList)) =
      .ok (t, u, n)) :
    exec st sql = .ok (save_json (hmModify
      (if !hmContains (load_json st) t
       then hmInsert (load_json st) t [] else load_json st)
      t (fun rows => rows ++
        [[("id", LocalDBValue.UUID u), ("name", LocalDBValue.TEXT n)]]))) := by
  rw [exec_eq_single st sql h1]
  have hempty := trim_ne_nil_of_insert h2
  have hnc := not_create_of_insert h2
  simp only [execGo, hempty, Bool.false_eq_true, if_false, hnc, h2, if_true,
    handle_insert, h3]
  rfl

theorem query_eq (st : Json) (sql : String) (tbl : String)
    (h1 : "SELECT".toList.isPrefixOf (trimL sql.toList) = true)
    (h2 : extract_table_name_from_select (trimL sql.toList) = .ok tbl) :
    query st sql = .ok ((hmGet (load_json st) tbl).getD []) := by
  simp only [query, h1, if_true, h2]


theorem rowWf_id_name (v w : LocalDBValue) :
    RowWf [("id", v), ("name", w)] := by
  unfold RowWf
  simp

/-! ### Claim theorems -/

/-- Claim C1: starting from a freshly initialized empty database file, executing
the batch that creates `users` and inserts the row
`('11111111-1111-1111-1111-111111111111', 'kk')`, then retrieving
`SELECT * FROM users;`, succeeds and yields exactly one row whose `id` field is
the identifier value `11111111-1111-1111-1111-111111111111` and whose `name`
field is the text value `kk`. -/
theorem end_to_end_scenario :
    ∃ st₁,
      exec (Json.obj []) "CREATE TABLE users (id UUID, name TEXT); INSERT INTO users VALUES ('11111111-1111-1111-1111-111111111111', 'kk');" = .ok st₁ ∧
      query st₁ "SELECT * FROM users;" =
        .ok [[("id", LocalDBValue.UUID "11111111-1111-1111-1111-111111111111"),
              ("name", LocalDBValue.TEXT "kk")]] :=
  ⟨Json.obj [("users", Json.arr [Json.obj
      [("id", Json.obj [("UUID", Json.str "11111111-1111-1111-1111-111111111111")]),
       ("name", Json.obj [("TEXT", Json.str "kk")])]])],
   rfl, rfl⟩

/-- Claim C2: for every well-formed database value (a genuine mapping: distinct
collection names, rows with distinct field names), loading immediately after
saving yields the same database, field for field, with row order preserved. -/
theorem database_roundtrip (d : Database) (h : DBWf d) :
    load_json (save_json d) = d :=
  load_json_save_json d h

/-- Claim C2 witness: the round-trip evaluated on a concrete two-collection
database exercising all three value tags. -/
theorem database_roundtrip_witness :
    DBWf [("users", [[("id", LocalDBValue.UUID "u1"),
                      ("name", LocalDBValue.TEXT "kk")]]),
          ("nums", [[("n", LocalDBValue.INT (-5))], []])] ∧
    load_json (save_json
      [("users", [[("id", LocalDBValue.UUID "u1"),
                   ("name", LocalDBValue.TEXT "kk")]]),
       ("nums", [[("n", LocalDBValue.INT (-5))], []])]) =
      [("users", [[("id", LocalDBValue.UUID "u1"),
                   ("name", LocalDBValue.TEXT "kk")]]),
       ("nums", [[("n", LocalDBValue.INT (-5))], []])] :=
  ⟨by decide, database_roundtrip _ (by decide)⟩

/-- Claim C3 counterexample: the segment `CREATE TABLEX foo` has leading
whitespace-delimited keywords `CREATE TABLEX`, which are not the creation pair,
the insertion pair, or its misspelling, yet `exec` succeeds (creating collection
`foo`) instead of failing with an unsupported-statement error: classification is
by literal prefix, not by whitespace-delimited keywords. -/
theorem keyword_matching_cex :
    (splitWs "CREATE TABLEX foo".toList).take 2 ≠
        ["CREATE".toList, "TABLE".toList] ∧
    (splitWs "CREATE TABLEX foo".toList).take 2 ≠
        ["INSERT".toList, "INTO".toList] ∧
    (splitWs "CREATE TABLEX foo".toList).take 2 ≠
        ["INSET".toList, "INTO".toList] ∧
    exec (Json.obj []) "CREATE TABLEX foo" =
      .ok (Json.obj [("foo", Json.arr [])]) :=
  ⟨by decide, by decide, by decide, rfl⟩

/-- Claim C3 amended: classification is by case-sensitive literal prefix
matching: every single-statement batch whose trimmed text is non-empty and does
not start with the literal `CREATE TABLE`, `INSERT INTO`, or `INSET INTO` makes
`exec` fail with an unsupported-statement error naming the trimmed segment. -/
theorem keyword_matching_by_literal (st : Json) (sql : String)
    (h1 : ';' ∉ sql.toList)
    (h2 : (trimL sql.toList).isEmpty = false)
    (h3 : "CREATE TABLE".toList.isPrefixOf (trimL sql.toList) = false)
    (h4 : "INSERT INTO".toList.isPrefixOf (trimL sql.toList) = false)
    (h5 : "INSET INTO".toList.isPrefixOf (trimL sql.toList) = false) :
    exec st sql =
      .err (.SqlError ("Unsupported SQL: " ++ (trimL sql.toList).asString)) := by
  rw [exec_eq_single st sql h1]
  simp only [execGo, h2, h3, h4, h5, Bool.or_self, Bool.false_eq_true, if_false]

/-- Claim C3 amended, witness: `DROP TABLE users` is rejected with the
unsupported-statement error naming the statement. -/
theorem keyword_matching_by_literal_witness :
    ';' ∉ ("DROP TABLE users").toList ∧
    exec (Json.obj []) "DROP TABLE users" =
      .err (.SqlError ("Unsupported SQL: " ++
        (trimL ("DROP TABLE users").toList).asString)) :=
  ⟨by decide, keyword_matching_by_literal (Json.obj []) "DROP TABLE users"
    (by decide) (by decide) (by decide) (by decide) (by decide)⟩

/-- Claim C4: from every starting state, executing the misspelled
`INSET INTO t VALUES ('x','y');` produces exactly the same result (and hence
the same resulting database state) as the correctly spelled
`INSERT INTO t VALUES ('x','y');`. -/
theorem inset_equiv_insert (st : Json) :
    exec st "INSET INTO t VALUES ('x','y');" =
      exec st "INSERT INTO t VALUES ('x','y');" := rfl

/-- Claim C5: whenever the parenthesized substring of an insert statement
contains no comma (so it splits into fewer than two positional arguments), row
extraction hits an unguarded index-out-of-range fault instead of returning a
malformed-statement error. -/
theorem insert_arity_fault (sql : List Char) (i j : Nat)
    (h1 : findIdxCh '(' sql = some i)
    (h2 : findIdxCh ')' sql = some j)
    (h3 : i < j)
    (h4 : ',' ∉ sliceL sql (i + 1) j) :
    extract_insert_data sql = .fault .indexOutOfBounds := by
  have hargs : splitOnP (fun c => c == ',') (sliceL sql (i + 1) j) =
      [sliceL sql (i + 1) j] :=
    splitOnP_eq_single (fun c hc => by
      have hcc : c ≠ ',' := fun hcc => h4 (hcc ▸ hc)
      simpa using hcc)
  cases hparts : (splitWs sql).get? 2 with
  | none => simp only [extract_insert_data, hparts]
  | some table =>
    simp only [extract_insert_data, hparts, h1, h2]
    rw [if_pos (show i + 1 ≤ j by omega)]
    simp only [hargs]
    rfl

/-- Claim C5 witness: `INSERT INTO t VALUES ('x')` has its parentheses at
indices 21 and 25, no comma between them, and extraction faults. -/
theorem insert_arity_fault_witness :
    findIdxCh '(' ("INSERT INTO t VALUES ('x')").toList = some 21 ∧
    findIdxCh ')' ("INSERT INTO t VALUES ('x')").toList = some 25 ∧
    (21 : Nat) < 25 ∧
    ',' ∉ sliceL ("INSERT INTO t VALUES ('x')").toList 22 25 ∧
    extract_insert_data ("INSERT INTO t VALUES ('x')").toList =
      .fault .indexOutOfBounds :=
  ⟨by decide, by decide, by decide, by decide,
   insert_arity_fault _ 21 25 (by decide) (by decide) (by decide) (by decide)⟩

/-- Claim C6: executing a single `CREATE TABLE` statement twice yields the same
state as executing it once; afterwards the named collection is present exactly
once, holding its previous rows (empty if it did not exist), and all other
collections are unchanged. -/
theorem create_idempotent (st : Json) (sql : String) (tok : List Char)
    (h1 : ';' ∉ sql.toList)
    (h2 : "CREATE TABLE".toList.isPrefixOf (trimL sql.toList) = true)
    (h3 : (splitWs (trimL sql.toList)).get? 2 = some tok) :
    ∃ st₁,
      exec st sql = .ok st₁ ∧
      exec st₁ sql = .ok st₁ ∧
      hmGet (load_json st₁) tok.asString =
        some ((hmGet (load_json st) tok.asString).getD []) ∧
      ((load_json st₁).map Prod.fst).count tok.asString = 1 ∧
      ∀ k, k ≠ tok.asString →
        hmGet (load_json st₁) k = hmGet (load_json st) k := by
  have hwf₀ : DBWf (load_json st) := load_json_wf st
  set D := load_json st with hD
  set E := if !hmContains D tok.asString
      then hmInsert D tok.asString [] else D with hE
  have hwf₁ : DBWf E := by rw [hE]; exact DBWf_ensure _ hwf₀
  have hload : load_json (save_json E) = E := load_json_save_json _ hwf₁
  have hc : hmContains E tok.asString = true := by
    rw [hE]
    exact hmContains_ensure D tok.asString
  refine ⟨save_json E, exec_single_create st sql tok h1 h2 h3, ?_, ?_, ?_, ?_⟩
  · have e2 := exec_single_create (save_json E) sql tok h1 h2 h3
    rw [hload] at e2
    rw [e2, hc]
    rfl
  · rw [hload, hE]
    exact hmGet_ensure_self D tok.asString
  · rw [hload]
    have hg : hmGet E tok.asString = some ((hmGet D tok.asString).getD []) := by
      rw [hE]
      exact hmGet_ensure_self D tok.asString
    have hmem : tok.asString ∈ E.map Prod.fst := by
      by_contra hcon
      rw [hmGet_eq_none_iff.2 hcon] at hg
      cases hg
    exact List.count_eq_one_of_mem hwf₁.1 hmem
  · intro k hk
    rw [hload, hE]
    exact hmGet_ensure_of_ne D hk

/-- Claim C6 witness: creating collection `t` on the empty state. -/
theorem create_idempotent_witness :
    ';' ∉ ("CREATE TABLE t (x INT)").toList ∧
    (∃ st₁,
      exec (Json.obj []) "CREATE TABLE t (x INT)" = .ok st₁ ∧
      exec st₁ "CREATE TABLE t (x INT)" = .ok st₁ ∧
      hmGet (load_json st₁) ("t".toList).asString =
        some ((hmGet (load_json (Json.obj [])) ("t".toList).asString).getD []) ∧
      ((load_json st₁).map Prod.fst).count ("t".toList).asString = 1 ∧
      ∀ k, k ≠ ("t".toList).asString →
        hmGet (load_json st₁) k = hmGet (load_json (Json.obj [])) k) :=
  ⟨by decide, create_idempotent (Json.obj []) "CREATE TABLE t (x INT)"
    ("t".toList) (by decide) (by decide) (by decide)⟩

/-- Claim C7: executing an insert of row (u1, n1) and then an insert of row
(u2, n2) into the same collection `t` makes any well-formed retrieval of `t`
return the collection's previous rows followed by the two new rows in insertion
order: first (u1, n1), then (u2, n2). -/
theorem insertion_order_preserved (st : Json) (sql1 sql2 qsql : String)
    (t u1 n1 u2 n2 : String)
    (h1 : ';' ∉ sql1.toList)
    (h2 : ';' ∉ sql2.toList)
    (h3 : ("INSERT INTO".toList.isPrefixOf (trimL sql1.toList)
        || "INSET INTO".toList.isPrefixOf (trimL sql1.toList)) = true)
    (h4 : ("INSERT INTO".toList.isPrefixOf (trimL sql2.toList)
        || "INSET INTO".toList.isPrefixOf (trimL sql2.toList)) = true)
    (h5 : extract_insert_data (replaceL "INSET".toList "INSERT".toList
        (trimL sql1.toList)) = .ok (t, u1, n1))
    (h6 : extract_insert_data (replaceL "INSET".toList "INSERT".toList
        (trimL sql2.toList)) = .ok (t, u2, n2))
    (h7 : "SELECT".toList.isPrefixOf (trimL qsql.toList) = true)
    (h8 : extract_table_name_from_select (trimL qsql.toList) = .ok t) :
    ∃ st₁ st₂,
      exec st sql1 = .ok st₁ ∧
      exec st₁ sql2 = .ok st₂ ∧
      query st₂ qsql = .ok ((hmGet (load_json st) t).getD [] ++
        [[("id", LocalDBValue.UUID u1), ("name", LocalDBValue.TEXT n1)],
         [("id", LocalDBValue.UUID u2), ("name", LocalDBValue.TEXT n2)]]) := by
  have hwf₀ : DBWf (load_json st) := load_json_wf st
  have hrow1 : RowWf [("id", LocalDBValue.UUID u1), ("name", LocalDBValue.TEXT n1)] :=
    rowWf_id_name _ _
  have hrow2 : RowWf [("id", LocalDBValue.UUID u2), ("name", LocalDBValue.TEXT n2)] :=
    rowWf_id_name _ _
  have e1 := exec_single_insert st sql1 t u1 n1 h1 h3 h5
  set d₀ := load_json st with hd₀
  set r1 : Row := [("id", LocalDBValue.UUID u1), ("name", LocalDBValue.TEXT n1)] with hr1
  set r2 : Row := [("id", LocalDBValue.UUID u2), ("name", LocalDBValue.TEXT n2)] with hr2
  set d₁ := hmModify (if !hmContains d₀ t then hmInsert d₀ t [] else d₀) t
    (fun rows => rows ++ [r1]) with hd₁
  have hwf₁ : DBWf d₁ := DBWf_modify_append t (DBWf_ensure t hwf₀) hrow1
  have hload₁ : load_json (save_json d₁) = d₁ := load_json_save_json _ hwf₁
  have e2 := exec_single_insert (save_json d₁) sql2 t u2 n2 h2 h4 h6
  rw [hload₁] at e2
  set d₂ := hmModify (if !hmContains d₁ t then hmInsert d₁ t [] else d₁) t
    (fun rows => rows ++ [r2]) with hd₂
  have hwf₂ : DBWf d₂ := DBWf_modify_append t (DBWf_ensure t hwf₁) hrow2
  have hload₂ : load_json (save_json d₂) = d₂ := load_json_save_json _ hwf₂
  refine ⟨save_json d₁, save_json d₂, e1, e2, ?_⟩
  rw [query_eq (save_json d₂) qsql t h7 h8, hload₂, hd₂]
  rw [insert_step_get_self d₁ t r2, hd₁, insert_step_get_self d₀ t r1]
  simp

/-- Claim C7 witness: two concrete inserts into `t` followed by
`SELECT * FROM t;` on the empty starting state. -/
theorem insertion_order_preserved_witness :
    extract_insert_data (replaceL "INSET".toList "INSERT".toList
      (trimL ("INSERT INTO t VALUES ('a', 'b')").toList)) = .ok ("t", "a", "b") ∧
    extract_insert_data (replaceL "INSET".toList "INSERT".toList
      (trimL ("INSERT INTO t VALUES ('c', 'd')").toList)) = .ok ("t", "c", "d") ∧
    extract_table_name_from_select
      (trimL ("SELECT * FROM t;").toList) = .ok "t" ∧
    (∃ st₁ st₂,
      exec (Json.obj []) "INSERT INTO t VALUES ('a', 'b')" = .ok st₁ ∧
      exec st₁ "INSERT INTO t VALUES ('c', 'd')" = .ok st₂ ∧
      query st₂ "SELECT * FROM t;" =
        .ok ((hmGet (load_json (Json.obj [])) "t").getD [] ++
          [[("id", LocalDBValue.UUID "a"), ("name", LocalDBValue.TEXT "b")],
           [("id", LocalDBValue.UUID "c"), ("name", LocalDBValue.TEXT "d")]])) :=
  ⟨by decide, by decide, by decide,
   insertion_order_preserved (Json.obj [])
    "INSERT INTO t VALUES ('a', 'b')" "INSERT INTO t VALUES ('c', 'd')"
    "SELECT * FROM t;" "t" "a" "b" "c" "d"
    (by decide) (by decide) (by decide) (by decide) (by decide) (by decide)
    (by decide) (by decide)⟩

/-- Claim C8 counterexample: for the retrieval statement `SELECT * FROM a;b`,
the 4th whitespace-delimited token is `a;b`, which has no trailing `;`; the
claim says the collection name used is that token with a trailing separator
stripped (`a;b`), but the code removes every `;`, yielding `ab` — so a state
holding a collection literally named `a;b` is not found by the retrieval. -/
theorem select_token_cex :
    extract_table_name_from_select (trimL ("SELECT * FROM a;b").toList) =
      .ok "ab" ∧
    "ab" ≠ "a;b" ∧
    query (save_json [("a;b", [[("id", LocalDBValue.UUID "u")]])])
      "SELECT * FROM a;b" = .ok [] :=
  ⟨by decide, by decide, by decide⟩

/-- Claim C8 amended: for every retrieval statement beginning with the
retrieval keyword, if fewer than 4 whitespace-delimited tokens are present the
retrieval fails with the malformed-statement error; otherwise the collection
name used is exactly the 4th whitespace-delimited token with every occurrence
of the statement-separator character `;` removed. -/
theorem select_token_semantics (st : Json) (sql : String)
    (h : "SELECT".toList.isPrefixOf (trimL sql.toList) = true) :
    ((splitWs (trimL sql.toList)).length < 4 →
      query st sql = .err (.SqlError "Invalid SELECT syntax")) ∧
    (∀ tok, (splitWs (trimL sql.toList)).get? 3 = some tok →
      query st sql =
        .ok ((hmGet (load_json st) (replaceL [';'] [] tok).asString).getD [])) := by
  constructor
  · intro hlen
    simp only [query, h, if_true, extract_table_name_from_select, if_pos hlen]
  · intro tok htok
    have hlen : ¬ (splitWs (trimL sql.toList)).length < 4 := by
      rcases List.get?_eq_some.1 htok with ⟨h4, _⟩
      omega
    simp only [query, h, if_true, extract_table_name_from_select,
      if_neg hlen, htok]

/-- Claim C8 amended, witness: `SELECT * FROM users;` resolves to collection
name `users` (the 4th token `users;` with `;` removed) on the empty state. -/
theorem select_token_semantics_witness :
    "SELECT".toList.isPrefixOf (trimL ("SELECT * FROM users;").toList) = true ∧
    (((splitWs (trimL ("SELECT * FROM users;").toList)).length < 4 →
      query (Json.obj []) "SELECT * FROM users;" =
        .err (.SqlError "Invalid SELECT syntax")) ∧
    (∀ tok, (splitWs (trimL ("SELECT * FROM users;").toList)).get? 3 = some tok →
      query (Json.obj []) "SELECT * FROM users;" =
        .ok ((hmGet (load_json (Json.obj []))
          (replaceL [';'] [] tok).asString).getD []))) :=
  ⟨by decide, select_token_semantics (Json.obj []) "SELECT * FROM users;"
    (by decide)⟩

/-- Claim C9: a well-formed retrieval naming a collection absent from the
loaded database succeeds with an empty sequence of rows, not an error. -/
theorem missing_table_empty (st : Json) (sql tbl : String)
    (h1 : "SELECT".toList.isPrefixOf (trimL sql.toList) = true)
    (h2 : extract_table_name_from_select (trimL sql.toList) = .ok tbl)
    (h3 : hmGet (load_json st) tbl = none) :
    query st sql = .ok [] := by
  rw [query_eq st sql tbl h1 h2, h3]
  rfl

/-- Claim C9 witness: `SELECT * FROM missing;` on the empty state. -/
theorem missing_table_empty_witness :
    hmGet (load_json (Json.obj [])) "missing" = none ∧
    query (Json.obj []) "SELECT * FROM missing;" = .ok [] :=
  ⟨by decide, missing_table_empty (Json.obj []) "SELECT * FROM missing;"
    "missing" (by decide) (by decide) (by decide)⟩

/-- Claim C10: the insert handler textually replaces every occurrence of
`INSET` by `INSERT` before extraction, even inside quoted values and even in
correctly spelled statements: inserting the name value `INSET` stores the text
`INSERT` instead of the submitted value. -/
theorem inset_replaced_in_values :
    ∃ st₁,
      exec (Json.obj []) "INSERT INTO t VALUES ('x', 'INSET');" = .ok st₁ ∧
      query st₁ "SELECT * FROM t;" =
        .ok [[("id", LocalDBValue.UUID "x"),
              ("name", LocalDBValue.TEXT "INSERT")]] ∧
      LocalDBValue.TEXT "INSERT" ≠ LocalDBValue.TEXT "INSET" :=
  ⟨Json.obj [("t", Json.arr [Json.obj [("id", Json.obj [("UUID", Json.str "x")]),
      ("name", Json.obj [("TEXT", Json.str "INSERT")])]])],
   rfl, rfl, by decide⟩

end LocalDB
